import Mathlib

/-!
# Verification of the polytracker tracing core

A shallow embedding of `polytracker/include/polytracker/tracing.h`:
the trace-event object model (basic-block entry, function call, function
return), the per-thread `TraceEventStack`, and the `Trace` aggregate with
its dual taint-usage maps.

Modelling conventions:
* `dfsan_label` and `BBIndex` come from `dfsan/dfsan_types.h` (opaque
  comparable, hashable small integers); both are modelled as `Nat`.
* Heap pointers to `TraceEvent` objects are modelled as indices into an
  arena list held by the owning `TraceEventStack`; the `previous` raw
  pointer becomes an `Option Nat` index (`none` models `nullptr`). The
  `eventHistory` vector stores those indices in push order.
* Interned global `const char *` function names are modelled as `String`;
  pointer comparison of interned names coincides with string equality
  (the source comments rely on exactly this).
* `std::hash` instantiations are abstract parameters `Nat → Nat`;
  `std::size_t` arithmetic is carried out modulo `2 ^ 64`.
* Thread identifiers (`std::thread::id`) are modelled as `Nat`; the
  implicit `std::this_thread::get_id()` becomes an explicit
  `callingThread` argument.
-/

set_option autoImplicit false

namespace Polytracker

/-- Taint label (typedef `dfsan_label`), an opaque identifier. -/
abbrev dfsan_label := Nat

/-- Basic-block index (typedef `BBIndex`), an opaque identifier. -/
abbrev BBIndex := Nat

/-- Thread identity (`std::thread::id`). -/
abbrev ThreadId := Nat

/-- The closed set of `TraceEvent` subclasses, as a tagged variant
(the design notes of the header suggest exactly this closed sum). -/
inductive EventKind where
  | basicBlockEntry (fname : String) (index : BBIndex)
  | functionCall (fname : String)
  | functionReturn (fname : String) (returningTo : Option Nat)
deriving DecidableEq, Repr

/-- One allocated `TraceEvent`: its variant payload and its `previous`
back-pointer (an arena index; `none` models `nullptr`). -/
structure TraceEventNode where
  kind : EventKind
  previous : Option Nat
deriving DecidableEq, Repr

/-- `BasicBlockTrace`: immutable value snapshot of one basic-block visit. -/
structure BasicBlockTrace where
  fname : String
  index : BBIndex
  entryCount : Nat
deriving DecidableEq, Repr

/-- `BasicBlockTrace::operator==`: compares the (interned) name, the block
index and the entry count. -/
def BasicBlockTrace.beq (a b : BasicBlockTrace) : Bool :=
  a.fname == b.fname && a.index == b.index && a.entryCount == b.entryCount

/-- `strcmp(x, y) < 0`: the first differing character decides; a proper
initial segment is smaller (NUL terminates first). Characters are compared
as code points, matching byte comparison on the ASCII identifiers that
occur as function names. -/
def strcmpLt : List Char → List Char → Bool
  | [], [] => false
  | [], _ :: _ => true
  | _ :: _, [] => false
  | a :: as, b :: bs => if a = b then strcmpLt as bs else decide (a < b)

/-- `BasicBlockTrace::operator<`: `strcmp` on the function names decides
first (`strcmp == 0` coincides with name equality); on equal names the
block index decides; on equal indices the entry count decides. -/
def BasicBlockTrace.ltb (a b : BasicBlockTrace) : Bool :=
  if a.fname = b.fname then
    if a.index = b.index then
      decide (a.entryCount < b.entryCount)
    else
      decide (a.index < b.index)
  else
    strcmpLt a.fname.data b.fname.data

/-- `BasicBlockTraceHasher::operator()`: with `h64` standing for
`std::hash<uint64_t>` and `hsz` for `std::hash<size_t>`, the hash is
`(h64(index) << 1) ^ (hsz(entryCount) << 1)` in `size_t` arithmetic.
The function name does not participate. -/
def BasicBlockTraceHasher (h64 hsz : Nat → Nat) (bb : BasicBlockTrace) : Nat :=
  (((h64 bb.index) <<< 1) % 2 ^ 64) ^^^ (((hsz bb.entryCount) <<< 1) % 2 ^ 64)

/-- `TraceEventStack`: `head` is the current top (an arena index),
`eventHistory` records every pushed event in order, and `arena` owns the
event objects themselves (position = allocation order). -/
structure TraceEventStack where
  arena : List TraceEventNode
  head : Option Nat
  eventHistory : List Nat
deriving DecidableEq, Repr

/-- The default constructor `TraceEventStack() : head(nullptr)`. -/
def TraceEventStack.init : TraceEventStack :=
  { arena := [], head := none, eventHistory := [] }

/-- `operator bool() const { return head != nullptr; }` -/
def TraceEventStack.toBool (s : TraceEventStack) : Bool :=
  s.head.isSome

/-- `bool empty() const { return head != nullptr; }` — transcribed exactly
as written in the source. -/
def TraceEventStack.empty (s : TraceEventStack) : Bool :=
  s.head.isSome

/-- `push(event)`: the event's `previous` is set to the current head, the
event becomes the new head, and it is appended to `eventHistory`. In the
model pushing allocates the node at the end of the arena (`emplace` is the
only construction path in the runtime). -/
def TraceEventStack.push (s : TraceEventStack) (k : EventKind) : TraceEventStack :=
  { arena := s.arena ++ [{ kind := k, previous := s.head }],
    head := some s.arena.length,
    eventHistory := s.eventHistory ++ [s.arena.length] }

/-- `peek()`: returns the current head. -/
def TraceEventStack.peek (s : TraceEventStack) : Option Nat :=
  s.head

/-- `pop()`: if the stack is non-empty, move `head` to `head->previous`
and report `true`; the arena and `eventHistory` are untouched. -/
def TraceEventStack.pop (s : TraceEventStack) : TraceEventStack × Bool :=
  match s.head with
  | some i =>
      ({ s with head := match s.arena.get? i with
                        | some n => n.previous
                        | none => none },
       true)
  | none => (s, false)

/-- The chain of events reached from `start` by following `previous`
links, materialised as (index, node) pairs. `fuel` bounds the walk so the
function is total; every state reachable by `push`/`pop` keeps the
`previous` index of a node strictly below its own index, so
`fuel = arena.length` always suffices there. -/
def chainFrom (arena : List TraceEventNode) : Nat → Option Nat → List (Nat × TraceEventNode)
  | 0, _ => []
  | _ + 1, none => []
  | fuel + 1, some i =>
      match arena.get? i with
      | none => []
      | some n => (i, n) :: chainFrom arena fuel n.previous

/-- The loop body of `Trace::currentBB`: walk `previous` links from
`start`; a `BasicBlockEntry` is returned, a `FunctionCall` aborts the walk
with `none`, a `FunctionReturn` is skipped. -/
def currentBBFrom (arena : List TraceEventNode) : Nat → Option Nat → Option Nat
  | 0, _ => none
  | _ + 1, none => none
  | fuel + 1, some i =>
      match arena.get? i with
      | none => none
      | some n =>
          match n.kind with
          | .basicBlockEntry _ _ => some i
          | .functionCall _ => none
          | .functionReturn _ _ => currentBBFrom arena fuel n.previous

/-- The loop body of `FunctionCall::getCaller`: walk `previous` links from
`start` and return the first `BasicBlockEntry`; every other variant is
skipped. -/
def getCallerFrom (arena : List TraceEventNode) : Nat → Option Nat → Option Nat
  | 0, _ => none
  | _ + 1, none => none
  | fuel + 1, some i =>
      match arena.get? i with
      | none => none
      | some n =>
          match n.kind with
          | .basicBlockEntry _ _ => some i
          | .functionCall _ => getCallerFrom arena fuel n.previous
          | .functionReturn _ _ => getCallerFrom arena fuel n.previous

/-- `FunctionCall::getCaller()` for the event stored at arena index `i` of
stack `s`: the walk starts at that event's `previous` link. -/
def TraceEventStack.getCaller (s : TraceEventStack) (i : Nat) : Option Nat :=
  match s.arena.get? i with
  | some n => getCallerFrom s.arena s.arena.length n.previous
  | none => none

/-- Does a node hold a `BasicBlockEntry`? (`dynamic_cast<BasicBlockEntry*>`). -/
def TraceEventNode.isBBE (n : TraceEventNode) : Bool :=
  match n.kind with
  | .basicBlockEntry _ _ => true
  | _ => false

/-- Does a node hold a `BasicBlockEntry` or a `FunctionCall`? These are the
variants at which the `currentBB` walk stops. -/
def TraceEventNode.stopsCurrentBB (n : TraceEventNode) : Bool :=
  match n.kind with
  | .basicBlockEntry _ _ => true
  | .functionCall _ => true
  | .functionReturn _ _ => false

/-- Specification-side description of `currentBB`, phrased over the
materialised chain: find the first event that is a block entry or a call;
a block entry is the answer, a call means there is no current block. -/
def specCurrentBB (c : List (Nat × TraceEventNode)) : Option Nat :=
  match c.find? (fun p => p.2.stopsCurrentBB) with
  | some (i, n) => if n.isBBE then some i else none
  | none => none

/-- Specification-side description of `getCaller`, phrased over the
materialised chain: the first `BasicBlockEntry`, if any. -/
def specGetCaller (c : List (Nat × TraceEventNode)) : Option Nat :=
  (c.find? (fun p => p.2.isBBE)).map Prod.fst

/-- `Trace`: the dual taint maps (`lastUsages`, `lastUsagesByBB`, with
`BasicBlockEntry` pointers modelled as `Nat`) and the per-thread event
stacks (`std::unordered_map` modelled as an optional-valued function). -/
@[ext]
structure Trace where
  lastUsages : dfsan_label → Option Nat
  lastUsagesByBB : Nat → Finset dfsan_label
  eventStacks : ThreadId → Option TraceEventStack

/-- A freshly constructed `Trace`: all maps empty. -/
def Trace.init : Trace :=
  { lastUsages := fun _ => none,
    lastUsagesByBB := fun _ => ∅,
    eventStacks := fun _ => none }

/-- `std::unordered_map::operator[]` on `eventStacks`: return the stack of
thread `t`, default-constructing it first when absent. -/
def Trace.stacksIndex (tr : Trace) (t : ThreadId) : TraceEventStack × Trace :=
  match tr.eventStacks t with
  | some s => (s, tr)
  | none =>
      (TraceEventStack.init,
       { tr with eventStacks := fun u =>
           if u = t then some TraceEventStack.init else tr.eventStacks u })

/-- `getStack(thread)`: the body is `eventStacks[std::this_thread::get_id()]`,
so the `thread` argument is never consulted. -/
def Trace.getStack (tr : Trace) (thread : ThreadId) (callingThread : ThreadId) :
    TraceEventStack × Trace :=
  let _ := thread
  tr.stacksIndex callingThread

/-- The non-const `currentStack()`: `eventStacks[std::this_thread::get_id()]`. -/
def Trace.currentStack (tr : Trace) (callingThread : ThreadId) :
    TraceEventStack × Trace :=
  tr.stacksIndex callingThread

/-- The const `currentStack()`: a find without insertion, `none` when the
calling thread has no stack. -/
def Trace.currentStackC (tr : Trace) (callingThread : ThreadId) :
    Option TraceEventStack :=
  tr.eventStacks callingThread

/-- `lastEvent()`: `peek` of the calling thread's stack, `none` when the
thread has no stack. -/
def Trace.lastEvent (tr : Trace) (callingThread : ThreadId) : Option Nat :=
  match tr.currentStackC callingThread with
  | some s => s.peek
  | none => none

/-- `secondToLastEvent()`: `lastEvent()->previous`, or `none`. -/
def Trace.secondToLastEvent (tr : Trace) (callingThread : ThreadId) : Option Nat :=
  match tr.currentStackC callingThread with
  | some s =>
      match s.peek with
      | some i =>
          match s.arena.get? i with
          | some n => n.previous
          | none => none
      | none => none
  | none => none

/-- `currentBB()`: walk backward from `lastEvent()`; the result is an
arena index of the calling thread's stack. -/
def Trace.currentBB (tr : Trace) (callingThread : ThreadId) : Option Nat :=
  match tr.currentStackC callingThread with
  | some s => currentBBFrom s.arena s.arena.length s.head
  | none => none

/-- The first step of `setLastUsage`: when the label already has a last
usage, erase it from the old block's reverse-map entry. -/
def Trace.eraseOldUsage (tr : Trace) (canonicalByte : dfsan_label) :
    Nat → Finset dfsan_label :=
  match tr.lastUsages canonicalByte with
  | some oldBb => fun b =>
      if b = oldBb then (tr.lastUsagesByBB oldBb).erase canonicalByte
      else tr.lastUsagesByBB b
  | none => tr.lastUsagesByBB

/-- `setLastUsage(canonicalByte, bb)`: when the label already has a last
usage, the label is first erased from the old block's reverse-map entry
(`eraseOldUsage`); then both maps record the new block. -/
def Trace.setLastUsage (tr : Trace) (canonicalByte : dfsan_label) (bb : Nat) : Trace :=
  { tr with
    lastUsages := fun l => if l = canonicalByte then some bb else tr.lastUsages l,
    lastUsagesByBB := fun b =>
      if b = bb then insert canonicalByte (tr.eraseOldUsage canonicalByte bb)
      else tr.eraseOldUsage canonicalByte b }

/-- `getLastUsage(label)`: lookup in `lastUsages`. -/
def Trace.getLastUsage (tr : Trace) (label : dfsan_label) : Option Nat :=
  tr.lastUsages label

/-- `taints(bb)`: the labels last used in `bb`, empty when none recorded. -/
def Trace.taints (tr : Trace) (bb : Nat) : Finset dfsan_label :=
  tr.lastUsagesByBB bb

/-- Apply a sequence of `setLastUsage` calls in order. -/
def Trace.applyUsages (tr : Trace) : List (dfsan_label × Nat) → Trace
  | [] => tr
  | (l, b) :: rest => (tr.setLastUsage l b).applyUsages rest

/-- The dual-map invariant of the two taint maps: membership in the
reverse map is exactly agreement with the forward map. -/
def Trace.dualMapInv (tr : Trace) : Prop :=
  ∀ (l : dfsan_label) (b : Nat), l ∈ tr.lastUsagesByBB b ↔ tr.lastUsages l = some b

/-- Modelled from the spec: the body of `TraceEvent::TraceEvent()` is not
among the provided sources (the header only declares it, and
`numTraceEvents` is `extern`). Per the spec, construction assigns
`eventIndex` from the process-wide counter `numTraceEvents` and increments
that counter exactly once; the counter starts at zero and is never reset
or decremented. The pair is (assigned `eventIndex`, updated counter). -/
def constructTraceEvent (numTraceEvents : Nat) : Nat × Nat :=
  (numTraceEvents, numTraceEvents + 1)

/-- The `eventIndex` values handed out by `n` consecutive constructions
starting from counter value `c`. -/
def eventIndicesFrom (c : Nat) : Nat → List Nat
  | 0 => []
  | n + 1 =>
      (constructTraceEvent c).1 :: eventIndicesFrom (constructTraceEvent c).2 n

/-! ## Theorems about `TraceEventStack` -/

/-- C3: after `push e`, `peek` returns the new event; the new event's
`previous` field is exactly the value `peek` returned before the push
(`none` when the stack was empty); and the event is appended at the end of
`eventHistory`, every earlier history entry staying unchanged in place and
order. -/
theorem push_sets_peek_previous_and_history (s : TraceEventStack) (k : EventKind) :
    (s.push k).peek = some s.arena.length ∧
    (s.push k).arena.get? s.arena.length = some { kind := k, previous := s.peek } ∧
    (s.push k).eventHistory = s.eventHistory ++ [s.arena.length] ∧
    ∀ i, i < s.eventHistory.length →
      (s.push k).eventHistory.get? i = s.eventHistory.get? i := by
  refine ⟨rfl, ?_, rfl, ?_⟩
  · simp [TraceEventStack.push, TraceEventStack.peek, List.get?_eq_getElem?,
      List.getElem?_concat_length s.arena { kind := k, previous := s.head }]
  · intro i hi
    simp [TraceEventStack.push, List.get?_eq_getElem?,
      List.getElem?_append_left hi]

/-- Witness for C3 at a concrete two-push stack. -/
theorem push_sets_peek_previous_and_history_witness :
    ((TraceEventStack.init.push (.functionCall "f")).push
        (.basicBlockEntry "g" 0)).eventHistory.get? 0 =
      (TraceEventStack.init.push (.functionCall "f")).eventHistory.get? 0 :=
  (push_sets_peek_previous_and_history
      (TraceEventStack.init.push (.functionCall "f"))
      (.basicBlockEntry "g" 0)).2.2.2 0 (by decide)

/-- C5: on a non-empty stack whose head is the event at arena index `i`,
`pop` reports `true`, moves `peek` to that event's `previous`, and leaves
both `eventHistory` and the arena — hence the popped event itself —
completely unchanged. -/
theorem pop_updates_peek_preserves_history (s : TraceEventStack) (i : Nat)
    (n : TraceEventNode) (hhead : s.head = some i)
    (hn : s.arena.get? i = some n) :
    (s.pop).2 = true ∧
    (s.pop).1.peek = n.previous ∧
    (s.pop).1.eventHistory = s.eventHistory ∧
    (s.pop).1.arena = s.arena := by
  rw [List.get?_eq_getElem?] at hn
  simp [TraceEventStack.pop, TraceEventStack.peek, hhead, hn]

/-- Witness for C5 on a one-element stack. -/
theorem pop_updates_peek_preserves_history_witness :
    ((TraceEventStack.init.push (.basicBlockEntry "f" 0)).pop).1.peek = none ∧
    ((TraceEventStack.init.push (.basicBlockEntry "f" 0)).pop).2 = true := by
  have h := pop_updates_peek_preserves_history
      (TraceEventStack.init.push (.basicBlockEntry "f" 0)) 0
      { kind := .basicBlockEntry "f" 0, previous := none } rfl rfl
  exact ⟨h.2.1, h.1⟩

/-- C4 (code-bug evaluation): on a freshly constructed stack — whose head
is unset, so the stack really is empty — the source's `empty()` returns
`false`, exactly like the boolean conversion, instead of negating it;
after a push `empty()` returns `true`. Both members have the body
`return head != nullptr;`. -/
theorem empty_agrees_with_bool_conversion_at_init :
    TraceEventStack.init.empty = false ∧
    TraceEventStack.init.toBool = false ∧
    (TraceEventStack.init.push (.functionCall "f")).empty = true :=
  ⟨rfl, rfl, rfl⟩

/-! ## Theorems about the dual taint maps -/

/-- `setLastUsage` acts pointwise on the forward map. -/
theorem setLastUsage_lastUsages (tr : Trace) (L : dfsan_label) (bb : Nat)
    (l : dfsan_label) :
    (tr.setLastUsage L bb).lastUsages l =
      if l = L then some bb else tr.lastUsages l := by
  simp only [Trace.setLastUsage]

/-- `setLastUsage` leaves the event stacks untouched. -/
theorem setLastUsage_eventStacks (tr : Trace) (L : dfsan_label) (bb : Nat) :
    (tr.setLastUsage L bb).eventStacks = tr.eventStacks := by
  simp only [Trace.setLastUsage]

/-- Membership after the erase step: the label being updated loses its
recorded block, everything else is untouched. -/
theorem mem_eraseOldUsage (tr : Trace) (L : dfsan_label) (l : dfsan_label)
    (b : Nat) :
    l ∈ tr.eraseOldUsage L b ↔
      (l ∈ tr.lastUsagesByBB b ∧ ¬(l = L ∧ tr.lastUsages L = some b)) := by
  unfold Trace.eraseOldUsage
  cases hLU : tr.lastUsages L with
  | none => simp
  | some oldBb =>
      by_cases hbo : b = oldBb
      · simp only [hbo, eq_self_iff_true, if_true, and_true,
          Finset.mem_erase, Option.some.injEq]
        tauto
      · have hbo' : ¬oldBb = b := fun hc => hbo hc.symm
        simp [hbo, hbo', Option.some.injEq]

/-- Membership in the reverse map after `setLastUsage`, characterised over
the state before the call. -/
theorem mem_setLastUsage_byBB (tr : Trace) (L : dfsan_label) (bb : Nat)
    (l : dfsan_label) (b : Nat) :
    (l ∈ (tr.setLastUsage L bb).lastUsagesByBB b) ↔
      ((l = L ∧ b = bb) ∨
       (l ∈ tr.lastUsagesByBB b ∧ ¬(l = L ∧ tr.lastUsages L = some b))) := by
  simp only [Trace.setLastUsage]
  by_cases hb : b = bb <;>
    simp [hb, Finset.mem_insert, mem_eraseOldUsage]

/-- The forward lookup right after a `setLastUsage` for the same label. -/
theorem getLastUsage_setLastUsage_self (tr : Trace) (L : dfsan_label) (bb : Nat) :
    (tr.setLastUsage L bb).getLastUsage L = some bb := by
  simp [Trace.getLastUsage, setLastUsage_lastUsages]

/-- A fresh `Trace` satisfies the dual-map invariant. -/
theorem dualMapInv_init : Trace.init.dualMapInv := by
  intro l b
  simp [Trace.init]

/-- `setLastUsage` preserves the dual-map invariant. -/
theorem dualMapInv_setLastUsage (tr : Trace) (L : dfsan_label) (bb : Nat)
    (h : tr.dualMapInv) : (tr.setLastUsage L bb).dualMapInv := by
  intro l b
  rw [mem_setLastUsage_byBB, setLastUsage_lastUsages]
  have hlb := h l b
  have hLB := h L b
  by_cases hl : l = L
  · subst hl
    simp only [eq_self_iff_true, true_and, if_true, Option.some.injEq]
    constructor
    · rintro (hbb | ⟨hmem, hns⟩)
      · exact hbb.symm
      · exact absurd (hLB.mp hmem) hns
    · intro hsome
      exact Or.inl hsome.symm
  · simp only [if_neg hl, hl, false_and, false_or, not_false_iff, and_true]
    exact hlb

/-- Any sequence of `setLastUsage` calls preserves the dual-map
invariant. -/
theorem dualMapInv_applyUsages (ops : List (dfsan_label × Nat)) (tr : Trace)
    (h : tr.dualMapInv) : (tr.applyUsages ops).dualMapInv := by
  induction ops generalizing tr with
  | nil => exact h
  | cons p rest ih =>
      obtain ⟨l, b⟩ := p
      exact ih _ (dualMapInv_setLastUsage _ l b h)

/-- C2: updating a label's last usage from `bbA` to `bbB` makes
`getLastUsage` answer `bbB`, removes the label from `taints(bbA)` and adds
it to `taints(bbB)`; after any sequence of `setLastUsage` calls every
label-block pair of the forward map is mirrored in exactly one reverse-map
entry; and `setLastUsage` is idempotent for a repeated pair. -/
theorem setLastUsage_dual_map_claims :
    (∀ (tr : Trace) (L : dfsan_label) (bbA bbB : Nat), bbA ≠ bbB →
      ((tr.setLastUsage L bbA).setLastUsage L bbB).getLastUsage L = some bbB ∧
      L ∉ ((tr.setLastUsage L bbA).setLastUsage L bbB).taints bbA ∧
      L ∈ ((tr.setLastUsage L bbA).setLastUsage L bbB).taints bbB) ∧
    (∀ (ops : List (dfsan_label × Nat)) (l : dfsan_label) (b : Nat),
      (Trace.init.applyUsages ops).lastUsages l = some b →
        l ∈ (Trace.init.applyUsages ops).taints b ∧
        ∀ b', b' ≠ b → l ∉ (Trace.init.applyUsages ops).taints b') ∧
    (∀ (tr : Trace) (L : dfsan_label) (bb : Nat),
      (tr.setLastUsage L bb).setLastUsage L bb = tr.setLastUsage L bb) := by
  refine ⟨?_, ?_, ?_⟩
  · intro tr L bbA bbB hne
    refine ⟨getLastUsage_setLastUsage_self _ _ _, ?_, ?_⟩
    · have hne' : ¬bbA = bbB := hne
      simp [Trace.taints, mem_setLastUsage_byBB, setLastUsage_lastUsages, hne']
    · simp [Trace.taints, mem_setLastUsage_byBB]
  · intro ops l b hlb
    have hinv := dualMapInv_applyUsages ops Trace.init dualMapInv_init
    refine ⟨(hinv l b).mpr hlb, ?_⟩
    intro b' hne hmem
    have hb' := (hinv l b').mp hmem
    rw [hlb] at hb'
    exact hne (Option.some.inj hb').symm
  · intro tr L bb
    refine Trace.ext ?_ ?_ ?_
    · funext l
      by_cases hl : l = L <;> simp [setLastUsage_lastUsages, hl]
    · funext b
      apply Finset.ext
      intro l
      simp only [mem_setLastUsage_byBB, setLastUsage_lastUsages,
        Option.some.injEq]
      by_cases hl : l = L
      · by_cases hb : b = bb
        · simp [hl, hb]
        · have hb' : ¬bb = b := fun hc => hb hc.symm
          simp [hl, hb, hb']
      · by_cases hb : b = bb <;> simp [hl, hb]
    · simp [setLastUsage_eventStacks]

/-- Witness for C2 with label 0 moved from block 1 to block 2, and one
recorded usage looked up both ways. -/
theorem setLastUsage_dual_map_claims_witness :
    (((Trace.init.setLastUsage 0 1).setLastUsage 0 2).getLastUsage 0 = some 2 ∧
      (0 : dfsan_label) ∉ ((Trace.init.setLastUsage 0 1).setLastUsage 0 2).taints 1 ∧
      (0 : dfsan_label) ∈ ((Trace.init.setLastUsage 0 1).setLastUsage 0 2).taints 2) ∧
    (0 : dfsan_label) ∈ (Trace.init.applyUsages [(0, 1)]).taints 1 :=
  ⟨setLastUsage_dual_map_claims.1 Trace.init 0 1 2 (by decide),
   (setLastUsage_dual_map_claims.2.1 [(0, 1)] 0 1 (by rfl)).1⟩

/-! ## Theorems about `Trace::getStack` -/

/-- C10: `getStack(t)` never consults `t`: from one calling thread any two
arguments yield the same result, which is exactly `currentStack()`; when
the calling thread has no stack yet one is default-constructed and
recorded under the calling thread's identity, and when it has one, that
stack is returned with the trace unchanged. -/
theorem getStack_ignores_thread_argument (tr : Trace) (t₁ t₂ c : ThreadId) :
    tr.getStack t₁ c = tr.getStack t₂ c ∧
    tr.getStack t₁ c = tr.currentStack c ∧
    (tr.eventStacks c = none →
      (tr.getStack t₁ c).1 = TraceEventStack.init ∧
      (tr.getStack t₁ c).2.eventStacks c = some TraceEventStack.init) ∧
    (∀ s, tr.eventStacks c = some s → tr.getStack t₁ c = (s, tr)) := by
  refine ⟨rfl, rfl, ?_, ?_⟩
  · intro h
    refine ⟨?_, ?_⟩ <;> simp [Trace.getStack, Trace.stacksIndex, h]
  · intro s h
    simp [Trace.getStack, Trace.stacksIndex, h]

/-- Witness for C10 on the empty trace. -/
theorem getStack_ignores_thread_argument_witness :
    (Trace.init.getStack 1 5).1 = TraceEventStack.init :=
  ((getStack_ignores_thread_argument Trace.init 1 2 5).2.2.1 rfl).1

/-! ## Theorems about the `BasicBlockTrace` order and hash -/

/-- `strcmp`-lt is irreflexive. -/
theorem strcmpLt_irrefl (as : List Char) : strcmpLt as as = false := by
  induction as with
  | nil => rfl
  | cons a as ih => simp [strcmpLt, ih]

/-- `strcmp`-lt is transitive. -/
theorem strcmpLt_trans (as bs cs : List Char) (h1 : strcmpLt as bs = true)
    (h2 : strcmpLt bs cs = true) : strcmpLt as cs = true := by
  induction as generalizing bs cs with
  | nil =>
      cases bs with
      | nil => simp [strcmpLt] at h1
      | cons b bs =>
          cases cs with
          | nil => simp [strcmpLt] at h2
          | cons c cs => rfl
  | cons a as ih =>
      cases bs with
      | nil => simp [strcmpLt] at h1
      | cons b bs =>
          cases cs with
          | nil => simp [strcmpLt] at h2
          | cons c cs =>
              simp only [strcmpLt] at h1 h2 ⊢
              by_cases hab : a = b <;> by_cases hbc : b = c
              · have hac : a = c := hab.trans hbc
                rw [if_pos hab] at h1
                rw [if_pos hbc] at h2
                rw [if_pos hac]
                exact ih _ _ h1 h2
              · have hac : ¬a = c := fun hc => hbc (hab.symm.trans hc)
                rw [if_neg hbc] at h2
                rw [if_neg hac, hab]
                exact h2
              · have hac : ¬a = c := fun hc => hab (hc.trans hbc.symm)
                rw [if_neg hab] at h1
                rw [if_neg hac, ← hbc]
                exact h1
              · rw [if_neg hab] at h1
                rw [if_neg hbc] at h2
                have hac : a < c :=
                  lt_trans (of_decide_eq_true h1) (of_decide_eq_true h2)
                rw [if_neg (ne_of_lt hac)]
                exact decide_eq_true hac

/-- Two lists that `strcmp`-compare below each other in neither direction
are equal. -/
theorem strcmpLt_eq_of_incomp (as : List Char) (bs : List Char)
    (h1 : strcmpLt as bs = false) (h2 : strcmpLt bs as = false) : as = bs := by
  induction as generalizing bs with
  | nil =>
      cases bs with
      | nil => rfl
      | cons b bs => simp [strcmpLt] at h1
  | cons a as ih =>
      cases bs with
      | nil => simp [strcmpLt] at h2
      | cons b bs =>
          simp only [strcmpLt] at h1 h2
          by_cases hab : a = b
          · rw [if_pos hab] at h1
            rw [if_pos hab.symm] at h2
            rw [hab, ih bs h1 h2]
          · rw [if_neg hab] at h1
            rw [if_neg (fun hc => hab hc.symm)] at h2
            have hnab := of_decide_eq_false h1
            have hnba := of_decide_eq_false h2
            rcases lt_trichotomy a b with h | h | h
            · exact absurd h hnab
            · exact absurd h hab
            · exact absurd h hnba

/-- `operator<` is irreflexive. -/
theorem ltb_irrefl (a : BasicBlockTrace) : a.ltb a = false := by
  simp [BasicBlockTrace.ltb]

/-- `operator<` is transitive. -/
theorem ltb_trans (a b c : BasicBlockTrace) (h1 : a.ltb b = true)
    (h2 : b.ltb c = true) : a.ltb c = true := by
  unfold BasicBlockTrace.ltb at h1 h2 ⊢
  by_cases hfab : a.fname = b.fname <;> by_cases hfbc : b.fname = c.fname
  · have hfac : a.fname = c.fname := hfab.trans hfbc
    rw [if_pos hfab] at h1
    rw [if_pos hfbc] at h2
    rw [if_pos hfac]
    by_cases hiab : a.index = b.index <;> by_cases hibc : b.index = c.index
    · have hiac : a.index = c.index := hiab.trans hibc
      rw [if_pos hiab] at h1
      rw [if_pos hibc] at h2
      rw [if_pos hiac]
      exact decide_eq_true
        (lt_trans (of_decide_eq_true h1) (of_decide_eq_true h2))
    · have hiac : ¬a.index = c.index := fun hc => hibc (hiab.symm.trans hc)
      rw [if_neg hibc] at h2
      rw [if_neg hiac, hiab]
      exact h2
    · have hiac : ¬a.index = c.index := fun hc => hiab (hc.trans hibc.symm)
      rw [if_neg hiab] at h1
      rw [if_neg hiac, ← hibc]
      exact h1
    · rw [if_neg hiab] at h1
      rw [if_neg hibc] at h2
      have hlt := Nat.lt_trans (of_decide_eq_true h1) (of_decide_eq_true h2)
      rw [if_neg (Nat.ne_of_lt hlt)]
      exact decide_eq_true hlt
  · have hfac : ¬a.fname = c.fname := fun hc => hfbc (hfab.symm.trans hc)
    rw [if_neg hfbc] at h2
    rw [if_neg hfac, hfab]
    exact h2
  · have hfac : ¬a.fname = c.fname := fun hc => hfab (hc.trans hfbc.symm)
    rw [if_neg hfab] at h1
    rw [if_neg hfac, ← hfbc]
    exact h1
  · rw [if_neg hfab] at h1
    rw [if_neg hfbc] at h2
    have htrans := strcmpLt_trans _ _ _ h1 h2
    have hfac : ¬a.fname = c.fname := by
      intro hc
      rw [hc, strcmpLt_irrefl] at htrans
      exact Bool.false_ne_true htrans
    rw [if_neg hfac]
    exact htrans

/-- Two traces that `operator<`-compare below each other in neither
direction are equal. -/
theorem ltb_eq_of_incomp (a b : BasicBlockTrace) (h1 : a.ltb b = false)
    (h2 : b.ltb a = false) : a = b := by
  unfold BasicBlockTrace.ltb at h1 h2
  by_cases hf : a.fname = b.fname
  · rw [if_pos hf] at h1
    rw [if_pos hf.symm] at h2
    by_cases hi : a.index = b.index
    · rw [if_pos hi] at h1
      rw [if_pos hi.symm] at h2
      have hce : a.entryCount = b.entryCount :=
        Nat.le_antisymm (Nat.le_of_not_lt (of_decide_eq_false h2))
          (Nat.le_of_not_lt (of_decide_eq_false h1))
      cases a
      cases b
      simp_all
    · rw [if_neg hi] at h1
      rw [if_neg (fun hc => hi hc.symm)] at h2
      have hn1 := of_decide_eq_false h1
      have hn2 := of_decide_eq_false h2
      exact absurd (Nat.le_antisymm (Nat.le_of_not_lt hn2)
        (Nat.le_of_not_lt hn1)) hi
  · rw [if_neg hf] at h1
    rw [if_neg (fun hc => hf hc.symm)] at h2
    have hdata := strcmpLt_eq_of_incomp _ _ h1 h2
    exact absurd (congrArg String.mk hdata) hf

/-- C7: `BasicBlockTrace`'s less-than is a strict weak order comparing
function name first (lexicographically), then block index, then entry
count: it is irreflexive and transitive, incomparability is transitive
(indeed incomparable traces are equal), `(f,0,0) < (f,0,1) < (f,1,0)` for
every name `f`, and every trace of function `"a"` precedes every trace of
function `"b"`. -/
theorem bbtrace_ltb_strict_weak_order :
    (∀ a : BasicBlockTrace, a.ltb a = false) ∧
    (∀ a b c : BasicBlockTrace,
      a.ltb b = true → b.ltb c = true → a.ltb c = true) ∧
    (∀ a b c : BasicBlockTrace,
      a.ltb b = false ∧ b.ltb a = false →
      b.ltb c = false ∧ c.ltb b = false →
      a.ltb c = false ∧ c.ltb a = false) ∧
    (∀ f : String,
      BasicBlockTrace.ltb ⟨f, 0, 0⟩ ⟨f, 0, 1⟩ = true ∧
      BasicBlockTrace.ltb ⟨f, 0, 1⟩ ⟨f, 1, 0⟩ = true) ∧
    (∀ i₁ e₁ i₂ e₂ : Nat,
      BasicBlockTrace.ltb ⟨"a", i₁, e₁⟩ ⟨"b", i₂, e₂⟩ = true) := by
  refine ⟨ltb_irrefl, ltb_trans, ?_, ?_, ?_⟩
  · intro a b c h1 h2
    have hab := ltb_eq_of_incomp a b h1.1 h1.2
    have hbc := ltb_eq_of_incomp b c h2.1 h2.2
    subst hab
    subst hbc
    exact ⟨ltb_irrefl a, ltb_irrefl a⟩
  · intro f
    constructor <;> simp [BasicBlockTrace.ltb]
  · intro i₁ e₁ i₂ e₂
    have hne : ¬("a" : String) = "b" := by decide
    simp only [BasicBlockTrace.ltb]
    rw [if_neg hne]
    decide

/-- Witness for C7: transitivity applied at concrete traces. -/
theorem bbtrace_ltb_strict_weak_order_witness :
    BasicBlockTrace.ltb ⟨"a", 0, 0⟩ ⟨"b", 1, 1⟩ = true :=
  bbtrace_ltb_strict_weak_order.2.1 ⟨"a", 0, 0⟩ ⟨"a", 0, 1⟩ ⟨"b", 1, 1⟩
    (by decide) (by decide)

/-- C8: the hash is consistent with `operator==` — equal traces hash
equally for every choice of the underlying `std::hash` functions; the
hash never depends on the function name; and equality itself compares all
three fields. -/
theorem bbtrace_hash_consistent_with_eq :
    (∀ (h64 hsz : Nat → Nat) (a b : BasicBlockTrace), a.beq b = true →
      BasicBlockTraceHasher h64 hsz a = BasicBlockTraceHasher h64 hsz b) ∧
    (∀ (h64 hsz : Nat → Nat) (f g : String) (i e : Nat),
      BasicBlockTraceHasher h64 hsz ⟨f, i, e⟩ =
        BasicBlockTraceHasher h64 hsz ⟨g, i, e⟩) ∧
    (∀ a b : BasicBlockTrace, a.beq b = true ↔
      (a.fname = b.fname ∧ a.index = b.index ∧ a.entryCount = b.entryCount)) := by
  refine ⟨?_, ?_, ?_⟩
  · intro h64 hsz a b hab
    simp only [BasicBlockTrace.beq, Bool.and_eq_true, beq_iff_eq] at hab
    unfold BasicBlockTraceHasher
    rw [hab.1.2, hab.2]
  · intro h64 hsz f g i e
    rfl
  · intro a b
    simp [BasicBlockTrace.beq, Bool.and_eq_true, beq_iff_eq, and_assoc]

/-- Witness for C8: hash consistency applied at a concrete pair. -/
theorem bbtrace_hash_consistent_with_eq_witness :
    BasicBlockTraceHasher id id ⟨"f", 1, 2⟩ =
      BasicBlockTraceHasher id id ⟨"f", 1, 2⟩ :=
  bbtrace_hash_consistent_with_eq.1 id id ⟨"f", 1, 2⟩ ⟨"f", 1, 2⟩ (by decide)

/-! ## Theorems about the backward chain walks -/

/-- The `currentBB` loop equals the first-block-or-call scan over the
materialised chain. -/
theorem currentBBFrom_eq_spec (arena : List TraceEventNode) (fuel : Nat)
    (start : Option Nat) :
    currentBBFrom arena fuel start =
      specCurrentBB (chainFrom arena fuel start) := by
  induction fuel generalizing start with
  | zero => cases start <;> rfl
  | succ fuel ih =>
      cases start with
      | none => rfl
      | some i =>
          simp only [currentBBFrom, chainFrom]
          cases harena : arena.get? i with
          | none => rfl
          | some n =>
              cases hk : n.kind with
              | basicBlockEntry f idx =>
                  have hstop : TraceEventNode.stopsCurrentBB n = true := by
                    simp [TraceEventNode.stopsCurrentBB, hk]
                  have hbbe : TraceEventNode.isBBE n = true := by
                    simp [TraceEventNode.isBBE, hk]
                  simp [specCurrentBB, hstop, hbbe, hk]
              | functionCall f =>
                  have hstop : TraceEventNode.stopsCurrentBB n = true := by
                    simp [TraceEventNode.stopsCurrentBB, hk]
                  have hbbe : TraceEventNode.isBBE n = false := by
                    simp [TraceEventNode.isBBE, hk]
                  simp [specCurrentBB, hstop, hbbe, hk]
              | functionReturn f rt =>
                  have hstop : TraceEventNode.stopsCurrentBB n = false := by
                    simp [TraceEventNode.stopsCurrentBB, hk]
                  simp [specCurrentBB, hstop, ih, hk]

/-- The `getCaller` loop equals the first-block scan over the materialised
chain. -/
theorem getCallerFrom_eq_spec (arena : List TraceEventNode) (fuel : Nat)
    (start : Option Nat) :
    getCallerFrom arena fuel start =
      specGetCaller (chainFrom arena fuel start) := by
  induction fuel generalizing start with
  | zero => cases start <;> rfl
  | succ fuel ih =>
      cases start with
      | none => rfl
      | some i =>
          simp only [getCallerFrom, chainFrom]
          cases harena : arena.get? i with
          | none => rfl
          | some n =>
              cases hk : n.kind with
              | basicBlockEntry f idx =>
                  have hbbe : TraceEventNode.isBBE n = true := by
                    simp [TraceEventNode.isBBE, hk]
                  simp [specGetCaller, hbbe, hk]
              | functionCall f =>
                  have hbbe : TraceEventNode.isBBE n = false := by
                    simp [TraceEventNode.isBBE, hk]
                  simp [specGetCaller, hbbe, ih, hk]
              | functionReturn f rt =>
                  have hbbe : TraceEventNode.isBBE n = false := by
                    simp [TraceEventNode.isBBE, hk]
                  simp [specGetCaller, hbbe, ih, hk]

/-- C1: `currentBB()` is `none` when the calling thread has no stack;
otherwise it equals the scan over the chain materialised from
`lastEvent()`: return the first event that is a `BasicBlockEntry` or a
`FunctionCall` — the former as answer, the latter as `none` — and `none`
when the chain ends with neither. -/
theorem currentBB_refines_chain_scan (tr : Trace) (c : ThreadId) :
    (tr.currentStackC c = none → tr.currentBB c = none) ∧
    (∀ s, tr.currentStackC c = some s →
      tr.currentBB c = specCurrentBB (chainFrom s.arena s.arena.length s.head)) := by
  constructor
  · intro h
    unfold Trace.currentBB
    rw [h]
  · intro s h
    unfold Trace.currentBB
    rw [h]
    exact currentBBFrom_eq_spec s.arena s.arena.length s.head

/-- Witness for C1: the spec's own three-step scenario — a block entry of
`f`, then a call of `g` (no current block), then a block entry of `g`. -/
theorem currentBB_refines_chain_scan_witness :
    ({ Trace.init with eventStacks := fun t =>
        if t = 0 then some (TraceEventStack.init.push (.basicBlockEntry "f" 0))
        else none } : Trace).currentBB 0 =
      specCurrentBB (chainFrom
        (TraceEventStack.init.push (.basicBlockEntry "f" 0)).arena
        (TraceEventStack.init.push (.basicBlockEntry "f" 0)).arena.length
        (TraceEventStack.init.push (.basicBlockEntry "f" 0)).head) ∧
    ({ Trace.init with eventStacks := fun t =>
        if t = 0 then some ((TraceEventStack.init.push
          (.basicBlockEntry "f" 0)).push (.functionCall "g"))
        else none } : Trace).currentBB 0 = none ∧
    ({ Trace.init with eventStacks := fun t =>
        if t = 0 then some (((TraceEventStack.init.push
          (.basicBlockEntry "f" 0)).push (.functionCall "g")).push
            (.basicBlockEntry "g" 0))
        else none } : Trace).currentBB 0 = some 2 := by
  refine ⟨?_, ?_, ?_⟩
  · exact (currentBB_refines_chain_scan _ 0).2
      (TraceEventStack.init.push (.basicBlockEntry "f" 0)) rfl
  · have h := (currentBB_refines_chain_scan
      ({ Trace.init with eventStacks := fun t =>
        if t = 0 then some ((TraceEventStack.init.push
          (.basicBlockEntry "f" 0)).push (.functionCall "g"))
        else none } : Trace) 0).2
      ((TraceEventStack.init.push (.basicBlockEntry "f" 0)).push
        (.functionCall "g")) rfl
    rw [h]
    rfl
  · have h := (currentBB_refines_chain_scan
      ({ Trace.init with eventStacks := fun t =>
        if t = 0 then some (((TraceEventStack.init.push
          (.basicBlockEntry "f" 0)).push (.functionCall "g")).push
            (.basicBlockEntry "g" 0))
        else none } : Trace) 0).2
      (((TraceEventStack.init.push (.basicBlockEntry "f" 0)).push
        (.functionCall "g")).push (.basicBlockEntry "g" 0)) rfl
    rw [h]
    rfl

/-- C6: for a `FunctionCall` event stored at arena index `i`,
`getCaller()` equals the first-`BasicBlockEntry` scan over the chain
materialised from the event's `previous` link — skipping calls and
returns, and `none` when the chain ends without a block entry. -/
theorem getCaller_refines_first_bbe_scan (s : TraceEventStack) (i : Nat)
    (n : TraceEventNode) (f : String) (hn : s.arena.get? i = some n)
    (_hk : n.kind = .functionCall f) :
    s.getCaller i =
      specGetCaller (chainFrom s.arena s.arena.length n.previous) := by
  simp only [TraceEventStack.getCaller, hn]
  exact getCallerFrom_eq_spec s.arena s.arena.length n.previous

/-- Witness for C6: the call of `g` made from block 0 of `f`. -/
theorem getCaller_refines_first_bbe_scan_witness :
    ((TraceEventStack.init.push (.basicBlockEntry "f" 0)).push
      (.functionCall "g")).getCaller 1 =
      specGetCaller (chainFrom
        ((TraceEventStack.init.push (.basicBlockEntry "f" 0)).push
          (.functionCall "g")).arena
        ((TraceEventStack.init.push (.basicBlockEntry "f" 0)).push
          (.functionCall "g")).arena.length
        (some 0)) :=
  getCaller_refines_first_bbe_scan
    ((TraceEventStack.init.push (.basicBlockEntry "f" 0)).push
      (.functionCall "g"))
    1 { kind := .functionCall "g", previous := some 0 } "g" rfl rfl

/-! ## Theorems about the event-index counter -/

/-- The indices handed out from counter value `c` form `range' c n`. -/
theorem eventIndicesFrom_eq_range' (n : Nat) (c : Nat) :
    eventIndicesFrom c n = List.range' c n := by
  induction n generalizing c with
  | zero => rfl
  | succ n ih => simp [eventIndicesFrom, constructTraceEvent, ih, List.range']

/-- Every index handed out from counter value `c` is at least `c`. -/
theorem eventIndicesFrom_le_mem (n : Nat) (c : Nat) :
    ∀ x ∈ eventIndicesFrom c n, c ≤ x := by
  induction n generalizing c with
  | zero => intro x hx; simp [eventIndicesFrom] at hx
  | succ n ih =>
      intro x hx
      simp only [eventIndicesFrom, constructTraceEvent, List.mem_cons] at hx
      rcases hx with rfl | hx
      · exact Nat.le_refl x
      · exact Nat.le_of_succ_le (ih (c + 1) x hx)

/-- The indices handed out from any counter value are strictly
increasing. -/
theorem eventIndicesFrom_pairwise (n : Nat) (c : Nat) :
    List.Pairwise (· < ·) (eventIndicesFrom c n) := by
  induction n generalizing c with
  | zero => exact List.Pairwise.nil
  | succ n ih =>
      refine List.Pairwise.cons ?_ (ih (c + 1))
      intro x hx
      exact Nat.lt_of_succ_le (eventIndicesFrom_le_mem n (c + 1) x hx)

/-- C9 (modelled from the spec, the `TraceEvent` constructor body being
outside the provided sources): starting the process-wide counter
`numTraceEvents` at zero and incrementing it exactly once per constructed
event, the assigned `eventIndex` values of any `n` constructions are
`0, 1, …, n-1`: strictly increasing in construction order and globally
unique. -/
theorem eventIndex_strictly_increasing_unique (n : Nat) :
    List.Pairwise (· < ·) (eventIndicesFrom 0 n) ∧
    (eventIndicesFrom 0 n).Nodup ∧
    eventIndicesFrom 0 n = List.range n := by
  refine ⟨eventIndicesFrom_pairwise n 0, ?_, ?_⟩
  · exact (eventIndicesFrom_pairwise n 0).imp Nat.ne_of_lt
  · rw [eventIndicesFrom_eq_range', List.range_eq_range']

end Polytracker
